import Mathlib

/-!
Shallow embedding of the pagination and batch-get engines of the
dynogels data-mapping layer: `utils.mergeResults`, `utils.paginatedRequest`
and `utils.streamRequest` from `lib/utils.js`, and the bucketed batch-get
pipeline from `lib/batch.js`.  Gateway interaction is modelled as a trace
of outcomes consumed one per request; JS objects with optional fields are
modelled with `Option`.
-/

namespace Dynogels

/-- Single page response as returned by one query/scan gateway call:
`Items`, `Count`, `ScannedCount` optional (absent modelled as `none`),
`ConsumedCapacity` optionally present with an optional `CapacityUnits`
(code reads `resp.ConsumedCapacity.CapacityUnits || 0`), and an optional
`LastEvaluatedKey` cursor. -/
structure Page (It Cu : Type) where
  Items : Option (List It)
  Count : Option Nat
  ScannedCount : Option Nat
  ConsumedCapacity : Option (Option Nat)
  LastEvaluatedKey : Option Cu
  deriving DecidableEq, Repr

/-- Aggregate result built by `utils.mergeResults`: `Items` and `Count`
always present; `ScannedCount` and `ConsumedCapacity` deleted when their
accumulated value is zero; `LastEvaluatedKey` present only when some page
carried one. -/
structure Aggregate (It Cu : Type) where
  Items : List It
  Count : Nat
  ScannedCount : Option Nat
  ConsumedCapacity : Option Nat
  LastEvaluatedKey : Option Cu
  deriving DecidableEq, Repr

/-- Accumulator of the `_.reduce` inside `utils.mergeResults`, before the
final zero-field deletions. -/
structure MergeAcc (It Cu : Type) where
  Items : List It
  Count : Nat
  ScannedCount : Nat
  CapacityUnits : Nat
  LastEvaluatedKey : Option Cu
  deriving DecidableEq, Repr

/-- One step of the reduce in `utils.mergeResults`: a falsy response is
skipped; otherwise `Count`/`ScannedCount` add `resp.X || 0`, capacity
units add when `resp.ConsumedCapacity` is present, `Items` concatenate
when present, and `LastEvaluatedKey` is overwritten when present. -/
def mergeStep (memo : MergeAcc It Cu) (resp : Option (Page It Cu)) : MergeAcc It Cu :=
  match resp with
  | none => memo
  | some r =>
    { Items := memo.Items ++ (r.Items.getD [])
      Count := memo.Count + r.Count.getD 0
      ScannedCount := memo.ScannedCount + r.ScannedCount.getD 0
      CapacityUnits := memo.CapacityUnits +
        (match r.ConsumedCapacity with
         | none => 0
         | some u => u.getD 0)
      LastEvaluatedKey :=
        match r.LastEvaluatedKey with
        | some k => some k
        | none => memo.LastEvaluatedKey }

/-- Embedding of `utils.mergeResults`: reduce over the responses starting
from the zero accumulator, then delete `ConsumedCapacity` when its
`CapacityUnits` is zero and `ScannedCount` when zero. -/
def mergeResults (responses : List (Option (Page It Cu))) : Aggregate It Cu :=
  let merged := responses.foldl mergeStep
    { Items := [], Count := 0, ScannedCount := 0, CapacityUnits := 0,
      LastEvaluatedKey := none }
  { Items := merged.Items
    Count := merged.Count
    ScannedCount := if merged.ScannedCount = 0 then none else some merged.ScannedCount
    ConsumedCapacity := if merged.CapacityUnits = 0 then none else some merged.CapacityUnits
    LastEvaluatedKey := merged.LastEvaluatedKey }

/-- Outcome of one gateway call in a trace: a successful page, or an
error carrying the gateway retryable flag. -/
inductive Outcome (It Cu E : Type) where
  | ok (p : Page It Cu)
  | err (e : E) (retryable : Bool)
  deriving DecidableEq, Repr

/-- Result of driving `utils.paginatedRequest` against a trace:
the `ExclusiveStartKey` of every request issued (in order; `none` on the
first request and after `clearStartKey`), the successful pages collected,
and the final result, with `none` when the trace was exhausted while the
loop still wanted to issue a request. -/
structure PagRun (It Cu E : Type) where
  issued : List (Option Cu)
  pages : List (Page It Cu)
  result : Option (Except E (Aggregate It Cu))
  deriving Repr

/-- Loop body of `utils.paginatedRequest`.  State mirrors the source:
`startKey` is the request document cursor set by `op.startKey` and
cleared by `op.clearStartKey` (modelled from the spec: the builder is the
request-state holder), `lek` is the local `lastEvaluatedKey` variable,
`retry` the local `retry` flag, `pages` the `responses` array.  The loop
runs while `(loadAll && lastEvaluatedKey) || retry`; a retryable error
leaves all state unchanged, a fatal error is thrown, a page updates the
cursor and is pushed. -/
def pagLoop (loadAll : Bool) (startKey lek : Option Cu) (retry : Bool)
    (pages : List (Page It Cu)) (trace : List (Outcome It Cu E)) : PagRun It Cu E :=
  if (loadAll && lek.isSome) || retry then
    match trace with
    | [] => { issued := [], pages := pages, result := none }
    | .err e r :: rest =>
      if !r then
        { issued := [startKey], pages := pages, result := some (.error e) }
      else
        let run := pagLoop loadAll startKey lek true pages rest
        { run with issued := startKey :: run.issued }
    | .ok p :: rest =>
      let newLek := p.LastEvaluatedKey
      let run := pagLoop loadAll newLek newLek false (pages ++ [p]) rest
      { run with issued := startKey :: run.issued }
  else
    { issued := [], pages := pages,
      result := some (.ok (mergeResults (pages.map some))) }

/-- Embedding of `utils.paginatedRequest`: `lastEvaluatedKey` starts
null, `retry` starts true, no pages collected, no start key set. -/
def paginatedRequest (loadAll : Bool) (trace : List (Outcome It Cu E)) :
    PagRun It Cu E :=
  pagLoop loadAll none none true [] trace

/-! Batch-get engine, `lib/batch.js`.  A request document is identified
with the list of `Keys` it carries for this table (the wrapper object
`RequestItems[tableName]` holds nothing else the protocol varies over);
`_.isEmpty` on the `UnprocessedKeys` object corresponds to the empty key
list. -/

/-- Batch-get response: `Responses[tableName]` when present, and the
`UnprocessedKeys` key list for this table (`[]` models an absent or empty
`UnprocessedKeys` object). -/
structure BResp (K It : Type) where
  Responses : Option (List It)
  UnprocessedKeys : List K
  deriving DecidableEq, Repr

/-- Outcome of one `runBatchGetItems` gateway call in a trace. -/
inductive BOutcome (K It E : Type) where
  | ok (r : BResp K It)
  | err (e : E) (retryable : Bool)
  deriving DecidableEq, Repr

/-- Result of one bucket sub-protocol: the key list of every request
issued in order, the responses received, and the final result (`none`
when the trace is exhausted with keys still unprocessed). -/
structure BatchRun (K It E : Type) where
  issued : List (List K)
  responses : List (BResp K It)
  result : Option (Except E (List It))
  deriving Repr

/-- Embedding of `internals.mergeResponses`: concatenates each response's
`Responses[tableName]` array (when present) in arrival order. -/
def mergeResponses (responses : List (BResp K It)) : List It :=
  responses.foldl (fun memo r => memo ++ r.Responses.getD []) []

/-- Loop of `internals.paginatedRequest` in `lib/batch.js`: while the
request still carries keys, issue it; a retryable error retries the same
unreduced request, a fatal error is thrown; on success the next request
is exactly the response's `UnprocessedKeys` and the response is pushed. -/
def batchLoop (request : List K) (responses : List (BResp K It))
    (trace : List (BOutcome K It E)) : BatchRun K It E :=
  if request.isEmpty then
    { issued := [], responses := responses,
      result := some (.ok (mergeResponses responses)) }
  else
    match trace with
    | [] => { issued := [], responses := responses, result := none }
    | .err e r :: rest =>
      if !r then
        { issued := [request], responses := responses, result := some (.error e) }
      else
        let run := batchLoop request responses rest
        { run with issued := request :: run.issued }
    | .ok resp :: rest =>
      let run := batchLoop resp.UnprocessedKeys (responses ++ [resp]) rest
      { run with issued := request :: run.issued }

/-- Embedding of `internals.buckets` viewed on the key list it drains:
`splice(0, 100)` chunks of at most 100 keys, in input order. -/
def buckets (keys : List K) : List (List K) :=
  if h : keys.isEmpty then []
  else keys.take 100 :: buckets (keys.drop 100)
termination_by keys.length
decreasing_by
  simp only [List.isEmpty_iff] at h
  have : 0 < keys.length := List.length_pos.mpr h
  simp [List.length_drop]
  omega

/-- Embedding of `internals.initialBatchGetItems` for one bucket:
serialize the bucket's keys with the schema key-builder `ser`, run the
unprocessed-key sub-protocol, then wrap each returned raw item with the
item factory `wrap` (`table.initItem` after `serializer.deserializeItem`). -/
def initialBatchGetItems (ser : K → SK) (wrap : It → It2) (keys : List K)
    (trace : List (BOutcome SK It E)) : BatchRun SK It2 E :=
  let run := batchLoop (keys.map ser) [] trace
  { issued := run.issued
    responses := run.responses.map (fun r => { r with Responses := r.Responses.map (List.map wrap) })
    result := run.result.map (fun res => res.map (List.map wrap)) }

/-- Joins the per-bucket results the way `Promise.map` + `_.flatten`
does: all buckets succeed gives the concatenation in bucket order, any
fatal bucket error fails the whole call, any blocked bucket blocks it. -/
def collectRuns : List (Option (Except E (List It))) → Option (Except E (List It))
  | [] => some (.ok [])
  | r :: rs =>
    match r, collectRuns rs with
    | some (.error e), _ => some (.error e)
    | none, _ => none
    | some (.ok _), some (.error e) => some (.error e)
    | some (.ok _), none => none
    | some (.ok xs), some (.ok ys) => some (.ok (xs ++ ys))

/-- Embedding of `internals.getItems`: partition a clone of the caller's
keys into buckets, run every bucket against its own gateway trace, and
flatten.  Returns the total list of issued gateway requests across
buckets (in bucket order) together with the flattened item result. -/
def getItems (ser : K → SK) (wrap : It → It2) (keys : List K)
    (traces : List (List (BOutcome SK It E))) :
    List (List SK) × Option (Except E (List It2)) :=
  let runs := (List.zip (buckets keys) traces).map
    (fun bt => initialBatchGetItems ser wrap bt.1 bt.2)
  (runs.foldr (fun run acc => run.issued ++ acc) [],
   collectRuns (runs.map (·.result)))

/-! Mutation model for claim C5.  JS arrays live in a store of
references; `internals.buckets` drains its argument in place via
`splice(0, 100)`, but `internals.getItems` hands it `_.clone(keys)`, a
fresh reference with the same contents. -/

/-- Store of JS arrays: contents by reference, plus the next fresh
reference. -/
structure Store (K : Type) where
  mem : Nat → List K
  next : Nat

/-- Model of `_.clone(keys)`: allocate a fresh reference holding a copy
of the contents at `r`. -/
def cloneRef (s : Store K) (r : Nat) : Store K × Nat :=
  ({ mem := Function.update s.mem s.next (s.mem r), next := s.next + 1 }, s.next)

/-- Destructive loop of `internals.buckets` on the store: repeatedly
`splice(0, 100)` the array at `r`, pushing each chunk, until the array
at `r` is empty. -/
def bucketsSplice (s : Store K) (r : Nat) : Store K × List (List K) :=
  let arr := s.mem r
  if h : arr.isEmpty then (s, [])
  else
    let s1 : Store K := { s with mem := Function.update s.mem r (arr.drop 100) }
    let out := bucketsSplice s1 r
    (out.1, arr.take 100 :: out.2)
termination_by (s.mem r).length
decreasing_by
  simp only [List.isEmpty_iff] at h
  have : 0 < (s.mem r).length := List.length_pos.mpr h
  simp [Function.update_same, List.length_drop]
  omega

/-- Store effect of `internals.getItems` on the caller's key array at
`r`: clone it, then let `internals.buckets` drain the clone. -/
def getItemsStore (s : Store K) (r : Nat) : Store K × List (List K) :=
  let cloned := cloneRef s r
  bucketsSplice cloned.1 cloned.2

/-! Dispatch concurrency for claim C9.  `internals.getItems` dispatches
the buckets with `Promise.map(internals.buckets(_.clone(keys)), fn)`:
no options argument is passed, and the library default for the
`concurrency` option is unlimited. -/

/-- Concurrency option handed to `Promise.map` at the bucket-dispatch
call site in `internals.getItems` (`lib/batch.js` line 80): the source
passes no options object, so no cap is set. -/
def bucketDispatchConcurrency : Option Nat := none

/-- Number of bucket requests started at once by `Promise.map` given the
bucket count: `min cap n` under a `concurrency` cap, all `n` at once
under the library default (no cap). -/
def initialInFlight (numBuckets : Nat) : Nat :=
  match bucketDispatchConcurrency with
  | none => numBuckets
  | some c => min c numBuckets

/-! Streaming variant, `utils.streamRequest`.  The consumer's `_read`
calls drive `startRead`; one successful gateway call pushes one page,
a retryable failure waits a fixed 1000 ms and re-attempts, a fatal
failure emits the error, and after a page with `loadAll` false or with
no `LastEvaluatedKey` the stream pushes end-of-stream (`null`). -/

/-- Observable outcome of a `streamRequest` run: pages pushed in order,
the delay before each retry attempt in order, whether end-of-stream was
pushed, the emitted error if any, and how many gateway outcomes were
consumed. -/
structure StreamOut (It Cu E : Type) where
  pushed : List (Page It Cu)
  delays : List Nat
  ended : Bool
  error : Option E
  consumed : Nat
  deriving DecidableEq, Repr

/-- Embedding of the `startRead` loop of `utils.streamRequest` driven
to quiescence by a reading consumer: consume outcomes one per attempt;
a retryable error records a `wait(1000)` delay and re-attempts with
unchanged cursor state; a fatal error emits it and stops; a page is
pushed, and when `loadAll` is false or the page has no cursor the run
ends with `stream.push(null)`.  Returns `none` when the trace is
exhausted mid-attempt. -/
def streamLoop (loadAll : Bool) (lek : Option Cu)
    (trace : List (Outcome It Cu E)) : Option (StreamOut It Cu E) :=
  match trace with
  | [] => none
  | .err e r :: rest =>
    if !r then
      some { pushed := [], delays := [], ended := false, error := some e, consumed := 1 }
    else
      (streamLoop loadAll lek rest).map fun o =>
        { o with delays := 1000 :: o.delays, consumed := o.consumed + 1 }
  | .ok p :: rest =>
    let newLek := p.LastEvaluatedKey
    if !loadAll || newLek.isNone then
      some { pushed := [p], delays := [], ended := true, error := none, consumed := 1 }
    else
      (streamLoop loadAll newLek rest).map fun o =>
        { o with pushed := p :: o.pushed, consumed := o.consumed + 1 }

/-- Embedding of `utils.streamRequest`: `lastEvaluatedKey` starts null. -/
def streamRequest (loadAll : Bool) (trace : List (Outcome It Cu E)) :
    Option (StreamOut It Cu E) :=
  streamLoop loadAll none trace

/-- Selects the page of a successful outcome. -/
def okPage : Outcome It Cu E → Option (Page It Cu)
  | .ok p => some p
  | .err _ _ => none

end Dynogels


namespace Dynogels

/-! Helper lemmas. -/

/-- Capacity units contributed by one page, as read by the merge step. -/
def capOf (p : Page It Cu) : Nat :=
  match p.ConsumedCapacity with
  | none => 0
  | some u => u.getD 0

theorem getLast?_isSome_of_ne_nil (l : List α) (h : l ≠ []) : l.getLast?.isSome := by
  cases l with
  | nil => exact absurd rfl h
  | cons a t =>
    induction t generalizing a with
    | nil => rfl
    | cons b t ih => rw [List.getLast?_cons_cons]; exact ih b (by simp)

theorem mergeAcc_spec (ps : List (Page It Cu)) (memo : MergeAcc It Cu) :
    List.foldl mergeStep memo (ps.map some) =
    { Items := memo.Items ++ (ps.map (fun p => p.Items.getD [])).flatten
      Count := memo.Count + (ps.map (fun p => p.Count.getD 0)).sum
      ScannedCount := memo.ScannedCount + (ps.map (fun p => p.ScannedCount.getD 0)).sum
      CapacityUnits := memo.CapacityUnits + (ps.map capOf).sum
      LastEvaluatedKey :=
        (ps.filterMap (fun p => p.LastEvaluatedKey)).getLast? <|> memo.LastEvaluatedKey } := by
  induction ps generalizing memo with
  | nil => simp
  | cons p ps ih =>
    rw [List.map_cons, List.foldl_cons, ih]
    have hstep : mergeStep memo (some p) =
        { Items := memo.Items ++ p.Items.getD []
          Count := memo.Count + p.Count.getD 0
          ScannedCount := memo.ScannedCount + p.ScannedCount.getD 0
          CapacityUnits := memo.CapacityUnits + capOf p
          LastEvaluatedKey := p.LastEvaluatedKey <|> memo.LastEvaluatedKey } := by
      simp only [mergeStep, capOf]
      cases p.LastEvaluatedKey <;> rfl
    rw [hstep]
    simp only [List.map_cons, List.flatten_cons, List.sum_cons, List.filterMap_cons]
    cases hk : p.LastEvaluatedKey with
    | none =>
      simp [List.append_assoc, Nat.add_assoc]
    | some k =>
      simp only [List.append_assoc, Nat.add_assoc, MergeAcc.mk.injEq, true_and,
        List.flatten_cons]
      cases hfm : ps.filterMap (fun p => p.LastEvaluatedKey) with
      | nil => simp
      | cons j t =>
        have hs := getLast?_isSome_of_ne_nil (j :: t) (by simp)
        rcases Option.isSome_iff_exists.mp hs with ⟨g, hg⟩
        rw [List.getLast?_cons_cons, hg]
        simp

end Dynogels

namespace Dynogels

theorem buckets_nil : buckets ([] : List K) = [] := by
  rw [buckets]
  rfl

theorem buckets_length (keys : List K) :
    (buckets keys).length = (keys.length + 99) / 100 := by
  induction keys using buckets.induct with
  | case1 keys h =>
    rw [buckets, dif_pos h]
    have : keys = [] := List.isEmpty_iff.mp h
    simp [this]
  | case2 keys h ih =>
    rw [buckets, dif_neg h]
    have hne : keys ≠ [] := fun heq => h (by simp [heq])
    have : 0 < keys.length := List.length_pos.mpr hne
    simp only [List.length_cons, ih, List.length_drop]
    omega

theorem buckets_sizes (keys : List K) :
    ∀ i b, (buckets keys)[i]? = some b → i + 1 < (buckets keys).length →
      b.length = 100 := by
  induction keys using buckets.induct with
  | case1 keys h =>
    intro i b h1 _h2
    rw [buckets, dif_pos h] at h1
    simp at h1
  | case2 keys h ih =>
    intro i b h1 h2
    rw [buckets, dif_neg h] at h1 h2
    cases i with
    | zero =>
      simp only [List.getElem?_cons_zero, Option.some.injEq] at h1
      subst h1
      simp only [List.length_cons] at h2
      have hlen := buckets_length (keys.drop 100)
      simp only [List.length_drop] at hlen
      have : 0 < (buckets (keys.drop 100)).length := by omega
      rw [hlen] at this
      simp only [List.length_take]
      omega
    | succ i =>
      simp only [List.getElem?_cons_succ, List.length_cons] at h1 h2
      exact ih i b h1 (by omega)

set_option maxRecDepth 4000 in
theorem buckets_rep250 :
    buckets (List.replicate 250 (0:Nat)) =
      [List.replicate 100 0, List.replicate 100 0, List.replicate 50 0] := by
  rw [buckets, List.take_replicate, List.drop_replicate]
  rw [buckets, List.take_replicate, List.drop_replicate]
  rw [buckets, List.take_replicate, List.drop_replicate]
  rw [buckets]
  norm_num

/-- C3: merging a sequence of pages concatenates their `Items` in page
order, sums `Count`, `ScannedCount` and `ConsumedCapacity.CapacityUnits`,
the `ScannedCount` and `ConsumedCapacity` fields being absent from the
aggregate exactly when their summed value is zero; the aggregate keeps
the most recent `LastEvaluatedKey`. -/
theorem claim_C3_merge_aggregate (It Cu : Type) (ps : List (Page It Cu)) :
    mergeResults (ps.map some) =
    { Items := (ps.map (fun p => p.Items.getD [])).flatten
      Count := (ps.map (fun p => p.Count.getD 0)).sum
      ScannedCount :=
        if (ps.map (fun p => p.ScannedCount.getD 0)).sum = 0 then none
        else some ((ps.map (fun p => p.ScannedCount.getD 0)).sum)
      ConsumedCapacity :=
        if (ps.map capOf).sum = 0 then none
        else some ((ps.map capOf).sum)
      LastEvaluatedKey := (ps.filterMap (fun p => p.LastEvaluatedKey)).getLast? } := by
  unfold mergeResults
  rw [mergeAcc_spec]
  simp

/-- C10: for the empty input key sequence, `getItems` produces zero
buckets, issues no gateway batch-get call at all, and returns the empty
item sequence. -/
theorem claim_C10_empty_keys (traces : List (List (BOutcome Nat Nat Nat))) :
    buckets ([] : List Nat) = [] ∧
    getItems (fun k => k) (fun i => i) ([] : List Nat) traces =
      ([], some (.ok [])) := by
  refine ⟨buckets_nil, ?_⟩
  unfold getItems
  rw [buckets_nil]
  rfl

end Dynogels

namespace Dynogels

set_option maxRecDepth 40000 in
/-- C4: `getItems` partitions N keys in order into ceil(N/100) buckets,
every bucket except possibly the last holding exactly 100 keys; for 250
keys where every bucket request returns full results with no unprocessed
keys, exactly 3 gateway batch-get calls are made, of sizes 100, 100 and
50, and the result has the 250 items. -/
theorem claim_C4_bucketing :
    (∀ (K : Type) (keys : List K),
      (buckets keys).length = (keys.length + 99) / 100)
    ∧ (∀ (K : Type) (keys : List K) (i : Nat) (b : List K),
        (buckets keys)[i]? = some b → i + 1 < (buckets keys).length →
        b.length = 100)
    ∧ ((getItems (fun k => k) (fun i => i) (List.replicate 250 (0:Nat))
          ([[.ok ⟨some (List.replicate 100 0), []⟩],
            [.ok ⟨some (List.replicate 100 0), []⟩],
            [.ok ⟨some (List.replicate 50 0), []⟩]] :
            List (List (BOutcome Nat Nat Nat)))).1.map List.length
        = [100, 100, 50]
      ∧ (getItems (fun k => k) (fun i => i) (List.replicate 250 (0:Nat))
          ([[.ok ⟨some (List.replicate 100 0), []⟩],
            [.ok ⟨some (List.replicate 100 0), []⟩],
            [.ok ⟨some (List.replicate 50 0), []⟩]] :
            List (List (BOutcome Nat Nat Nat)))).2
        = some (.ok ((List.replicate 100 0 ++ List.replicate 100 0 ++ List.replicate 50 0 : List Nat)))
      ∧ (List.replicate 100 0 ++ List.replicate 100 0 ++ List.replicate 50 0 : List Nat).length = 250) := by
  refine ⟨fun K keys => buckets_length keys, fun K keys => buckets_sizes keys, ?_, ?_, ?_⟩
  · unfold getItems
    rw [buckets_rep250]
    rfl
  · unfold getItems
    rw [buckets_rep250]
    rfl
  · simp

/-- C4 witness: the bucket-size bound applied at the concrete 250-key
input, bucket 0. -/
theorem claim_C4_bucketing_witness :
    (buckets (List.replicate 250 (0:Nat)))[0]? = some (List.replicate 100 0)
    ∧ 0 + 1 < (buckets (List.replicate 250 (0:Nat))).length
    ∧ (List.replicate 100 (0:Nat)).length = 100 := by
  have h1 : (buckets (List.replicate 250 (0:Nat)))[0]? = some (List.replicate 100 0) := by
    rw [buckets_rep250]
    simp
  have h2 : 0 + 1 < (buckets (List.replicate 250 (0:Nat))).length := by
    rw [buckets_rep250]
    norm_num
  exact ⟨h1, h2, claim_C4_bucketing.2.1 Nat (List.replicate 250 0) 0 (List.replicate 100 0) h1 h2⟩

end Dynogels

namespace Dynogels

/-! Step lemmas for the pagination loop. -/

theorem pagLoop_stop (la : Bool) (sk lek : Option Cu) (r : Bool)
    (pages : List (Page It Cu)) (trace : List (Outcome It Cu E))
    (hcond : ((la && lek.isSome) || r) = false) :
    pagLoop la sk lek r pages trace =
      { issued := [], pages := pages,
        result := some (.ok (mergeResults (pages.map some))) } := by
  rw [pagLoop.eq_def, if_neg (by simp [hcond])]

theorem pagLoop_nil (la : Bool) (sk lek : Option Cu) (r : Bool)
    (pages : List (Page It Cu))
    (hcond : ((la && lek.isSome) || r) = true) :
    pagLoop (E := E) la sk lek r pages [] =
      { issued := [], pages := pages, result := none } := by
  rw [pagLoop, if_pos hcond]

theorem pagLoop_fatal (la : Bool) (sk lek : Option Cu) (r : Bool)
    (pages : List (Page It Cu)) (e : E) (rest : List (Outcome It Cu E))
    (hcond : ((la && lek.isSome) || r) = true) :
    pagLoop la sk lek r pages (.err e false :: rest) =
      { issued := [sk], pages := pages, result := some (.error e) } := by
  rw [pagLoop, if_pos hcond]
  simp

theorem pagLoop_retry (la : Bool) (sk lek : Option Cu) (r : Bool)
    (pages : List (Page It Cu)) (e : E) (rest : List (Outcome It Cu E))
    (hcond : ((la && lek.isSome) || r) = true) :
    pagLoop la sk lek r pages (.err e true :: rest) =
      { pagLoop la sk lek true pages rest with
          issued := sk :: (pagLoop la sk lek true pages rest).issued } := by
  rw [pagLoop, if_pos hcond]
  simp

theorem pagLoop_ok (la : Bool) (sk lek : Option Cu) (r : Bool)
    (pages : List (Page It Cu)) (p : Page It Cu) (rest : List (Outcome It Cu E))
    (hcond : ((la && lek.isSome) || r) = true) :
    pagLoop la sk lek r pages (.ok p :: rest) =
      { pagLoop la p.LastEvaluatedKey p.LastEvaluatedKey false (pages ++ [p]) rest with
          issued := sk ::
            (pagLoop la p.LastEvaluatedKey p.LastEvaluatedKey false (pages ++ [p]) rest).issued } := by
  rw [pagLoop, if_pos hcond]

/-- Clean full run of the pagination loop with `loadAll` on, entered just
after a page whose cursor is `k`: every page but the last carries a
cursor, the last does not, and the loop consumes exactly the pages,
issuing each request with the preceding page's cursor. -/
theorem pagLoop_full_run (ps : List (Page It Cu)) :
    ∀ (extra : List (Outcome It Cu E)) (k : Cu) (pages : List (Page It Cu)),
    ps ≠ [] →
    (∀ i p, ps[i]? = some p → i + 1 < ps.length → p.LastEvaluatedKey.isSome) →
    (∀ p, ps.getLast? = some p → p.LastEvaluatedKey = none) →
    pagLoop true (some k) (some k) false pages (ps.map .ok ++ extra) =
      { issued := some k :: ps.dropLast.map (fun p => p.LastEvaluatedKey)
        pages := pages ++ ps
        result := some (.ok (mergeResults ((pages ++ ps).map some))) } := by
  induction ps with
  | nil => intro _ _ _ hne _ _; exact absurd rfl hne
  | cons p ps ih =>
    intro extra k pages _hne hmid hlast
    rw [List.map_cons, List.cons_append, pagLoop_ok _ _ _ _ _ _ _ (by simp)]
    cases hps : ps with
    | nil =>
      have hpl : p.LastEvaluatedKey = none := hlast p (by simp [hps])
      subst hps
      rw [hpl, pagLoop_stop _ _ _ _ _ _ (by simp)]
      simp
    | cons q ps2 =>
      subst hps
      have hpk : p.LastEvaluatedKey.isSome := hmid 0 p (by simp) (by simp)
      rcases Option.isSome_iff_exists.mp hpk with ⟨k2, hk2⟩
      rw [hk2]
      rw [ih extra k2 (pages ++ [p]) (by simp)
        (fun i pp h1 h2 => hmid (i + 1) pp (by simpa using h1) (by simpa using h2))
        (fun pp h => hlast pp (by rw [List.getLast?_cons_cons]; exact h))]
      have hdl : (p :: q :: ps2).dropLast = p :: (q :: ps2).dropLast :=
        List.dropLast_cons_of_ne_nil (by simp)
      simp [hdl, hk2, List.append_assoc]

/-- With `loadAll` false, any run from the retrying state that reaches a
successful result has fetched exactly one more page. -/
theorem pagLoop_single_page (trace : List (Outcome It Cu E)) :
    ∀ (sk lek : Option Cu) (pages : List (Page It Cu)) (a : Aggregate It Cu),
    (pagLoop false sk lek true pages trace).result = some (.ok a) →
    (pagLoop false sk lek true pages trace).pages.length = pages.length + 1 := by
  induction trace with
  | nil =>
    intro sk lek pages a h
    rw [pagLoop_nil _ _ _ _ _ (by simp)] at h
    simp at h
  | cons o rest ih =>
    intro sk lek pages a h
    match o with
    | .err e false =>
      rw [pagLoop_fatal _ _ _ _ _ _ _ (by simp)] at h ⊢
      simp at h
    | .err e true =>
      rw [pagLoop_retry _ _ _ _ _ _ _ (by simp)] at h ⊢
      exact ih sk lek pages a h
    | .ok p =>
      rw [pagLoop_ok _ _ _ _ _ _ _ (by simp)] at h ⊢
      rw [pagLoop_stop _ _ _ _ _ _ (by simp)] at h ⊢
      simp

end Dynogels

namespace Dynogels

/-- C1: with `loadAll` true, a paginated execution issues its first
request with no `ExclusiveStartKey`, each later request with an
`ExclusiveStartKey` equal to the preceding page's `LastEvaluatedKey`,
and stops after the first page without a `LastEvaluatedKey`, consuming
none of the `extra` outcomes; with `loadAll` false, every successful
execution fetches exactly one page. -/
theorem claim_C1_pagination_loop :
    (∀ (It Cu E : Type) (ps : List (Page It Cu)) (extra : List (Outcome It Cu E)),
      ps ≠ [] →
      (∀ i p, ps[i]? = some p → i + 1 < ps.length → p.LastEvaluatedKey.isSome) →
      (∀ p, ps.getLast? = some p → p.LastEvaluatedKey = none) →
      paginatedRequest true (ps.map .ok ++ extra) =
        { issued := none :: ps.dropLast.map (fun p => p.LastEvaluatedKey)
          pages := ps
          result := some (.ok (mergeResults (ps.map some))) })
    ∧ (∀ (It Cu E : Type) (trace : List (Outcome It Cu E)) (a : Aggregate It Cu),
        (paginatedRequest false trace).result = some (.ok a) →
        (paginatedRequest false trace).pages.length = 1) := by
  constructor
  · intro It Cu E ps extra hne hmid hlast
    unfold paginatedRequest
    cases hps : ps with
    | nil => exact absurd hps hne
    | cons p ps2 =>
      subst hps
      rw [List.map_cons, List.cons_append, pagLoop_ok _ _ _ _ _ _ _ (by simp)]
      cases hps2 : ps2 with
      | nil =>
        have hpl : p.LastEvaluatedKey = none := hlast p (by simp [hps2])
        subst hps2
        rw [hpl, pagLoop_stop _ _ _ _ _ _ (by simp)]
        simp
      | cons q ps3 =>
        subst hps2
        have hpk : p.LastEvaluatedKey.isSome := hmid 0 p (by simp) (by simp)
        rcases Option.isSome_iff_exists.mp hpk with ⟨k2, hk2⟩
        rw [hk2]
        simp only [List.nil_append]
        rw [pagLoop_full_run (q :: ps3) extra k2 [p] (by simp)
          (fun i pp h1 h2 => hmid (i + 1) pp (by simpa using h1) (by simpa using h2))
          (fun pp h => hlast pp (by rw [List.getLast?_cons_cons]; exact h))]
        have hdl : (p :: q :: ps3).dropLast = p :: (q :: ps3).dropLast :=
          List.dropLast_cons_of_ne_nil (by simp)
        simp [hdl, hk2]
  · intro It Cu E trace a h
    exact pagLoop_single_page trace none none [] a h

/-- C1 witness: a two-page `loadAll` run whose first page carries cursor
5 and whose second page carries none, with one extra outcome left
unconsumed. -/
theorem claim_C1_pagination_loop_witness :
    (([⟨some [1], some 1, none, none, some 5⟩,
       ⟨some [2], some 1, none, none, none⟩] : List (Page Nat Nat)) ≠ [])
    ∧ (∀ i p, ([⟨some [1], some 1, none, none, some 5⟩,
       ⟨some [2], some 1, none, none, none⟩] : List (Page Nat Nat))[i]? = some p →
        i + 1 < ([⟨some [1], some 1, none, none, some 5⟩,
       ⟨some [2], some 1, none, none, none⟩] : List (Page Nat Nat)).length →
        p.LastEvaluatedKey.isSome)
    ∧ (∀ p, ([⟨some [1], some 1, none, none, some 5⟩,
       ⟨some [2], some 1, none, none, none⟩] : List (Page Nat Nat)).getLast? = some p →
        p.LastEvaluatedKey = none)
    ∧ paginatedRequest true (([⟨some [1], some 1, none, none, some 5⟩,
       ⟨some [2], some 1, none, none, none⟩] : List (Page Nat Nat)).map .ok
         ++ ([.err 7 true] : List (Outcome Nat Nat Nat))) =
        { issued := [none, some 5]
          pages := [⟨some [1], some 1, none, none, some 5⟩,
            ⟨some [2], some 1, none, none, none⟩]
          result := some (.ok ⟨[1, 2], 2, none, none, some 5⟩) } := by
  have hne : (([⟨some [1], some 1, none, none, some 5⟩,
      ⟨some [2], some 1, none, none, none⟩] : List (Page Nat Nat)) ≠ []) := by simp
  have hmid : ∀ i p, ([⟨some [1], some 1, none, none, some 5⟩,
      ⟨some [2], some 1, none, none, none⟩] : List (Page Nat Nat))[i]? = some p →
      i + 1 < ([⟨some [1], some 1, none, none, some 5⟩,
      ⟨some [2], some 1, none, none, none⟩] : List (Page Nat Nat)).length →
      p.LastEvaluatedKey.isSome := by
    intro i p h1 h2
    simp only [List.length_cons, List.length_nil] at h2
    have hi : i = 0 := by omega
    subst hi
    simp only [List.getElem?_cons_zero, Option.some.injEq] at h1
    rw [← h1]
    rfl
  have hlast : ∀ p, ([⟨some [1], some 1, none, none, some 5⟩,
      ⟨some [2], some 1, none, none, none⟩] : List (Page Nat Nat)).getLast? = some p →
      p.LastEvaluatedKey = none := by
    intro p h
    rw [List.getLast?_cons_cons] at h
    simp only [List.getLast?_singleton, Option.some.injEq] at h
    rw [← h]
  have happ := claim_C1_pagination_loop.1 Nat Nat Nat
    [⟨some [1], some 1, none, none, some 5⟩, ⟨some [2], some 1, none, none, none⟩]
    [.err 7 true] hne hmid hlast
  refine ⟨hne, hmid, hlast, ?_⟩
  rw [happ]
  rfl

end Dynogels

namespace Dynogels

/-- C7 counterexample: a two-page `loadAll` run whose terminal page has
no `LastEvaluatedKey` still returns an aggregate carrying the preceding
page's cursor, so the cursor is not discarded from the result once a
terminal page is seen. -/
theorem claim_C7_counterexample :
    paginatedRequest true ([.ok ⟨some [1], some 1, none, none, some 7⟩,
        .ok ⟨some [2], some 1, none, none, none⟩] : List (Outcome Nat Nat Nat)) =
      { issued := [none, some 7]
        pages := [⟨some [1], some 1, none, none, some 7⟩,
          ⟨some [2], some 1, none, none, none⟩]
        result := some (.ok ⟨[1, 2], 2, none, none, some 7⟩) }
    ∧ (⟨some [2], some 1, none, none, none⟩ : Page Nat Nat).LastEvaluatedKey = none
    ∧ (some 7 : Option Nat) ≠ none := by
  exact ⟨rfl, rfl, by simp⟩

theorem mergeResults_lek (ps : List (Page It Cu)) :
    (mergeResults (ps.map some)).LastEvaluatedKey =
      (ps.filterMap (fun p => p.LastEvaluatedKey)).getLast? := by
  unfold mergeResults
  rw [mergeAcc_spec]
  simp

theorem pagLoop_result_ok (trace : List (Outcome It Cu E)) :
    ∀ (la : Bool) (sk lek : Option Cu) (r : Bool) (pages : List (Page It Cu))
      (agg : Aggregate It Cu),
    (pagLoop la sk lek r pages trace).result = some (.ok agg) →
    agg = mergeResults (((pagLoop la sk lek r pages trace).pages).map some) := by
  induction trace with
  | nil =>
    intro la sk lek r pages agg h
    rcases Bool.eq_false_or_eq_true ((la && lek.isSome) || r) with hc | hc
    · rw [pagLoop_nil _ _ _ _ _ hc] at h
      simp at h
    · rw [pagLoop_stop _ _ _ _ _ _ hc] at h ⊢
      simp at h
      simp [h]
  | cons o rest ih =>
    intro la sk lek r pages agg h
    rcases Bool.eq_false_or_eq_true ((la && lek.isSome) || r) with hc | hc
    · match o with
      | .err e false =>
        rw [pagLoop_fatal _ _ _ _ _ _ _ hc] at h
        simp at h
      | .err e true =>
        rw [pagLoop_retry _ _ _ _ _ _ _ hc] at h ⊢
        exact ih la sk lek true pages agg h
      | .ok p =>
        rw [pagLoop_ok _ _ _ _ _ _ _ hc] at h ⊢
        exact ih la p.LastEvaluatedKey p.LastEvaluatedKey false (pages ++ [p]) agg h
    · rw [pagLoop_stop _ _ _ _ _ _ hc] at h ⊢
      simp at h
      simp [h]

/-- C7 amended: the aggregate returned by a successful paginated
execution carries the most recent `LastEvaluatedKey` among its merged
pages (the last page that had one), and the field is absent exactly when
no merged page carried a cursor — not whenever the run ended at a
cursor-less page. -/
theorem claim_C7_amended_cursor_retained :
    ∀ (It Cu E : Type) (la : Bool) (trace : List (Outcome It Cu E))
      (agg : Aggregate It Cu),
    (paginatedRequest la trace).result = some (.ok agg) →
    agg.LastEvaluatedKey =
      (((paginatedRequest la trace).pages).filterMap (fun p => p.LastEvaluatedKey)).getLast?
    ∧ (agg.LastEvaluatedKey = none ↔
        ∀ p ∈ (paginatedRequest la trace).pages, p.LastEvaluatedKey = none) := by
  intro It Cu E la trace agg h
  have hagg := pagLoop_result_ok trace la none none true [] agg h
  have h1 : agg.LastEvaluatedKey =
      (((paginatedRequest la trace).pages).filterMap (fun p => p.LastEvaluatedKey)).getLast? := by
    rw [hagg]
    exact mergeResults_lek _
  refine ⟨h1, ?_⟩
  rw [h1, List.getLast?_eq_none_iff, List.filterMap_eq_nil_iff]

/-- C7 amended witness: the two-page run of the counterexample input,
where the aggregate keeps cursor 7 from the first page. -/
theorem claim_C7_amended_cursor_retained_witness :
    (paginatedRequest true ([.ok ⟨some [1], some 1, none, none, some 7⟩,
        .ok ⟨some [2], some 1, none, none, none⟩] : List (Outcome Nat Nat Nat))).result =
      some (.ok ⟨[1, 2], 2, none, none, some 7⟩)
    ∧ (⟨[1, 2], 2, none, none, some 7⟩ : Aggregate Nat Nat).LastEvaluatedKey =
      (((paginatedRequest true ([.ok ⟨some [1], some 1, none, none, some 7⟩,
        .ok ⟨some [2], some 1, none, none, none⟩] : List (Outcome Nat Nat Nat))).pages).filterMap
          (fun p => p.LastEvaluatedKey)).getLast? := by
  have h : (paginatedRequest true ([.ok ⟨some [1], some 1, none, none, some 7⟩,
      .ok ⟨some [2], some 1, none, none, none⟩] : List (Outcome Nat Nat Nat))).result =
      some (.ok ⟨[1, 2], 2, none, none, some 7⟩) := rfl
  exact ⟨h, (claim_C7_amended_cursor_retained Nat Nat Nat true _ _ h).1⟩

end Dynogels

namespace Dynogels

/-! Step lemmas for the batch-get loop. -/

theorem batchLoop_done (request : List K) (responses : List (BResp K It))
    (trace : List (BOutcome K It E)) (hreq : request.isEmpty = true) :
    batchLoop request responses trace =
      { issued := [], responses := responses,
        result := some (.ok (mergeResponses responses)) } := by
  rw [batchLoop.eq_def, if_pos hreq]

theorem batchLoop_nil (request : List K) (responses : List (BResp K It))
    (hreq : request.isEmpty = false) :
    batchLoop (E := E) request responses [] =
      { issued := [], responses := responses, result := none } := by
  rw [batchLoop.eq_def, if_neg (by simp [hreq])]

theorem batchLoop_fatal (request : List K) (responses : List (BResp K It))
    (e : E) (rest : List (BOutcome K It E)) (hreq : request.isEmpty = false) :
    batchLoop request responses (.err e false :: rest) =
      { issued := [request], responses := responses,
        result := some (.error e) } := by
  rw [batchLoop.eq_def, if_neg (by simp [hreq])]
  simp

theorem batchLoop_retry (request : List K) (responses : List (BResp K It))
    (e : E) (rest : List (BOutcome K It E)) (hreq : request.isEmpty = false) :
    batchLoop request responses (.err e true :: rest) =
      { batchLoop request responses rest with
          issued := request :: (batchLoop request responses rest).issued } := by
  rw [batchLoop.eq_def, if_neg (by simp [hreq])]
  simp

theorem batchLoop_ok (request : List K) (responses : List (BResp K It))
    (resp : BResp K It) (rest : List (BOutcome K It E))
    (hreq : request.isEmpty = false) :
    batchLoop request responses (.ok resp :: rest) =
      { batchLoop resp.UnprocessedKeys (responses ++ [resp]) rest with
          issued := request ::
            (batchLoop resp.UnprocessedKeys (responses ++ [resp]) rest).issued } := by
  rw [batchLoop.eq_def, if_neg (by simp [hreq])]

theorem batchLoop_issued_head (trace : List (BOutcome K It E))
    (request : List K) (responses : List (BResp K It)) (x : List K) :
    (batchLoop request responses trace).issued[0]? = some x → x = request := by
  intro h
  rcases Bool.eq_false_or_eq_true request.isEmpty with hreq | hreq
  · rw [batchLoop_done _ _ _ hreq] at h
    simp at h
  · match trace with
    | [] =>
      rw [batchLoop_nil _ _ hreq] at h
      simp at h
    | .err e false :: rest =>
      rw [batchLoop_fatal _ _ _ _ hreq] at h
      simpa using h.symm
    | .err e true :: rest =>
      rw [batchLoop_retry _ _ _ _ hreq] at h
      simpa using h.symm
    | .ok resp :: rest =>
      rw [batchLoop_ok _ _ _ _ hreq] at h
      simpa using h.symm

theorem pagLoop_issued_head (trace : List (Outcome It Cu E))
    (la : Bool) (sk lek : Option Cu) (r : Bool) (pages : List (Page It Cu))
    (x : Option Cu) :
    (pagLoop la sk lek r pages trace).issued[0]? = some x → x = sk := by
  intro h
  rcases Bool.eq_false_or_eq_true ((la && lek.isSome) || r) with hc | hc
  · match trace with
    | [] =>
      rw [pagLoop_nil _ _ _ _ _ hc] at h
      simp at h
    | .err e false :: rest =>
      rw [pagLoop_fatal _ _ _ _ _ _ _ hc] at h
      simpa using h.symm
    | .err e true :: rest =>
      rw [pagLoop_retry _ _ _ _ _ _ _ hc] at h
      simpa using h.symm
    | .ok p :: rest =>
      rw [pagLoop_ok _ _ _ _ _ _ _ hc] at h
      simpa using h.symm
  · rw [pagLoop_stop _ _ _ _ _ _ hc] at h
    simp at h

end Dynogels

namespace Dynogels

theorem pagLoop_retry_same (tr : List (Outcome It Cu E)) :
    ∀ (la : Bool) (sk lek : Option Cu) (r : Bool) (pages : List (Page It Cu))
      (i : Nat) (e : E) (x y : Option Cu),
    tr[i]? = some (.err e true) →
    (pagLoop la sk lek r pages tr).issued[i]? = some x →
    (pagLoop la sk lek r pages tr).issued[i+1]? = some y → y = x := by
  induction tr with
  | nil =>
    intro la sk lek r pages i e x y h1 _h2 _h3
    simp at h1
  | cons o rest ih =>
    intro la sk lek r pages i e x y h1 h2 h3
    rcases Bool.eq_false_or_eq_true ((la && lek.isSome) || r) with hc | hc
    · match o with
      | .err e0 false =>
        rw [pagLoop_fatal _ _ _ _ _ _ _ hc] at h3
        simp at h3
      | .err e0 true =>
        rw [pagLoop_retry _ _ _ _ _ _ _ hc] at h2 h3
        cases i with
        | zero =>
          simp only [List.getElem?_cons_zero, Option.some.injEq] at h2
          simp only [List.getElem?_cons_succ] at h3
          have hy := pagLoop_issued_head rest la sk lek true pages y h3
          rw [hy, h2]
        | succ j =>
          simp only [List.getElem?_cons_succ] at h1 h2 h3
          exact ih la sk lek true pages j e x y h1 h2 h3
      | .ok p =>
        rw [pagLoop_ok _ _ _ _ _ _ _ hc] at h2 h3
        cases i with
        | zero => simp at h1
        | succ j =>
          simp only [List.getElem?_cons_succ] at h1 h2 h3
          exact ih la p.LastEvaluatedKey p.LastEvaluatedKey false (pages ++ [p]) j e x y h1 h2 h3
    · rw [pagLoop_stop _ _ _ _ _ _ hc] at h2
      simp at h2

theorem pagLoop_fatal_stops (tr : List (Outcome It Cu E)) :
    ∀ (la : Bool) (sk lek : Option Cu) (r : Bool) (pages : List (Page It Cu))
      (i : Nat) (e : E),
    tr[i]? = some (.err e false) →
    i < (pagLoop la sk lek r pages tr).issued.length →
    (pagLoop la sk lek r pages tr).result = some (.error e)
      ∧ (pagLoop la sk lek r pages tr).issued.length = i + 1 := by
  induction tr with
  | nil =>
    intro la sk lek r pages i e h1 _h2
    simp at h1
  | cons o rest ih =>
    intro la sk lek r pages i e h1 h2
    rcases Bool.eq_false_or_eq_true ((la && lek.isSome) || r) with hc | hc
    · match o with
      | .err e0 false =>
        rw [pagLoop_fatal _ _ _ _ _ _ _ hc] at h2 ⊢
        simp only [List.length_cons, List.length_nil] at h2 ⊢
        have hi : i = 0 := by omega
        subst hi
        simp only [List.getElem?_cons_zero, Option.some.injEq] at h1
        rcases h1.symm with h1
        injection h1 with he _
        exact ⟨by rw [he], rfl⟩
      | .err e0 true =>
        rw [pagLoop_retry _ _ _ _ _ _ _ hc] at h2 ⊢
        cases i with
        | zero => simp at h1
        | succ j =>
          simp only [List.getElem?_cons_succ] at h1
          simp only [List.length_cons] at h2 ⊢
          have := ih la sk lek true pages j e h1 (by omega)
          exact ⟨this.1, by omega⟩
      | .ok p =>
        rw [pagLoop_ok _ _ _ _ _ _ _ hc] at h2 ⊢
        cases i with
        | zero => simp at h1
        | succ j =>
          simp only [List.getElem?_cons_succ] at h1
          simp only [List.length_cons] at h2 ⊢
          have := ih la p.LastEvaluatedKey p.LastEvaluatedKey false (pages ++ [p]) j e h1 (by omega)
          exact ⟨this.1, by omega⟩
    · rw [pagLoop_stop _ _ _ _ _ _ hc] at h2
      simp at h2

end Dynogels

namespace Dynogels

theorem batchLoop_retry_same (tr : List (BOutcome K It E)) :
    ∀ (request : List K) (responses : List (BResp K It))
      (i : Nat) (e : E) (x y : List K),
    tr[i]? = some (.err e true) →
    (batchLoop request responses tr).issued[i]? = some x →
    (batchLoop request responses tr).issued[i+1]? = some y → y = x := by
  induction tr with
  | nil =>
    intro request responses i e x y h1 _h2 _h3
    simp at h1
  | cons o rest ih =>
    intro request responses i e x y h1 h2 h3
    rcases Bool.eq_false_or_eq_true request.isEmpty with hreq | hreq
    · rw [batchLoop_done _ _ _ hreq] at h2
      simp at h2
    · match o with
      | .err e0 false =>
        rw [batchLoop_fatal _ _ _ _ hreq] at h3
        simp at h3
      | .err e0 true =>
        rw [batchLoop_retry _ _ _ _ hreq] at h2 h3
        cases i with
        | zero =>
          simp only [List.getElem?_cons_zero, Option.some.injEq] at h2
          simp only [List.getElem?_cons_succ] at h3
          have hy := batchLoop_issued_head rest request responses y h3
          rw [hy, h2]
        | succ j =>
          simp only [List.getElem?_cons_succ] at h1 h2 h3
          exact ih request responses j e x y h1 h2 h3
      | .ok resp =>
        rw [batchLoop_ok _ _ _ _ hreq] at h2 h3
        cases i with
        | zero => simp at h1
        | succ j =>
          simp only [List.getElem?_cons_succ] at h1 h2 h3
          exact ih resp.UnprocessedKeys (responses ++ [resp]) j e x y h1 h2 h3

theorem batchLoop_fatal_stops (tr : List (BOutcome K It E)) :
    ∀ (request : List K) (responses : List (BResp K It)) (i : Nat) (e : E),
    tr[i]? = some (.err e false) →
    i < (batchLoop request responses tr).issued.length →
    (batchLoop request responses tr).result = some (.error e)
      ∧ (batchLoop request responses tr).issued.length = i + 1 := by
  induction tr with
  | nil =>
    intro request responses i e h1 _h2
    simp at h1
  | cons o rest ih =>
    intro request responses i e h1 h2
    rcases Bool.eq_false_or_eq_true request.isEmpty with hreq | hreq
    · rw [batchLoop_done _ _ _ hreq] at h2
      simp at h2
    · match o with
      | .err e0 false =>
        rw [batchLoop_fatal _ _ _ _ hreq] at h2 ⊢
        simp only [List.length_cons, List.length_nil] at h2 ⊢
        have hi : i = 0 := by omega
        subst hi
        simp only [List.getElem?_cons_zero, Option.some.injEq] at h1
        rcases h1.symm with h1
        injection h1 with he _
        exact ⟨by rw [he], rfl⟩
      | .err e0 true =>
        rw [batchLoop_retry _ _ _ _ hreq] at h2 ⊢
        cases i with
        | zero => simp at h1
        | succ j =>
          simp only [List.getElem?_cons_succ] at h1
          simp only [List.length_cons] at h2 ⊢
          have := ih request responses j e h1 (by omega)
          exact ⟨this.1, by omega⟩
      | .ok resp =>
        rw [batchLoop_ok _ _ _ _ hreq] at h2 ⊢
        cases i with
        | zero => simp at h1
        | succ j =>
          simp only [List.getElem?_cons_succ] at h1
          simp only [List.length_cons] at h2 ⊢
          have := ih resp.UnprocessedKeys (responses ++ [resp]) j e h1 (by omega)
          exact ⟨this.1, by omega⟩

theorem batchLoop_next_request (tr : List (BOutcome K It E)) :
    ∀ (request : List K) (responses : List (BResp K It))
      (i : Nat) (resp : BResp K It) (x : List K),
    tr[i]? = some (.ok resp) →
    (batchLoop request responses tr).issued[i+1]? = some x →
    x = resp.UnprocessedKeys := by
  induction tr with
  | nil =>
    intro request responses i resp x h1 _h2
    simp at h1
  | cons o rest ih =>
    intro request responses i resp x h1 h2
    rcases Bool.eq_false_or_eq_true request.isEmpty with hreq | hreq
    · rw [batchLoop_done _ _ _ hreq] at h2
      simp at h2
    · match o with
      | .err e0 false =>
        rw [batchLoop_fatal _ _ _ _ hreq] at h2
        simp at h2
      | .err e0 true =>
        rw [batchLoop_retry _ _ _ _ hreq] at h2
        cases i with
        | zero => simp at h1
        | succ j =>
          simp only [List.getElem?_cons_succ] at h1 h2
          exact ih request responses j resp x h1 h2
      | .ok resp0 =>
        rw [batchLoop_ok _ _ _ _ hreq] at h2
        cases i with
        | zero =>
          simp only [List.getElem?_cons_zero, Option.some.injEq] at h1
          have hr : resp0 = resp := by injection h1
          simp only [List.getElem?_cons_succ] at h2
          have hx := batchLoop_issued_head rest resp0.UnprocessedKeys (responses ++ [resp0]) x h2
          rw [hx, hr]
        | succ j =>
          simp only [List.getElem?_cons_succ] at h1 h2
          exact ih resp0.UnprocessedKeys (responses ++ [resp0]) j resp x h1 h2

theorem batchLoop_issued_nil (tr : List (BOutcome K It E))
    (request : List K) (responses : List (BResp K It))
    (hreq : request.isEmpty = false) :
    (batchLoop request responses tr).issued = [] →
    (batchLoop request responses tr).result = none := by
  intro h
  match tr with
  | [] =>
    rw [batchLoop_nil _ _ hreq]
  | .err e false :: rest =>
    rw [batchLoop_fatal _ _ _ _ hreq] at h
    simp at h
  | .err e true :: rest =>
    rw [batchLoop_retry _ _ _ _ hreq] at h
    simp at h
  | .ok resp :: rest =>
    rw [batchLoop_ok _ _ _ _ hreq] at h
    simp at h

theorem batchLoop_terminates (tr : List (BOutcome K It E)) :
    ∀ (request : List K) (responses : List (BResp K It))
      (i : Nat) (resp : BResp K It),
    tr[i]? = some (.ok resp) →
    i < (batchLoop request responses tr).issued.length →
    (resp.UnprocessedKeys.isEmpty = true →
      (batchLoop request responses tr).issued.length = i + 1
      ∧ ∃ its, (batchLoop request responses tr).result = some (.ok its))
    ∧ (resp.UnprocessedKeys.isEmpty = false →
        (batchLoop request responses tr).issued.length = i + 1 →
        (batchLoop request responses tr).result = none) := by
  induction tr with
  | nil =>
    intro request responses i resp h1 _h2
    simp at h1
  | cons o rest ih =>
    intro request responses i resp h1 h2
    rcases Bool.eq_false_or_eq_true request.isEmpty with hreq | hreq
    · rw [batchLoop_done _ _ _ hreq] at h2
      simp at h2
    · match o with
      | .err e0 false =>
        rw [batchLoop_fatal _ _ _ _ hreq] at h2
        simp only [List.length_cons, List.length_nil] at h2
        have hi : i = 0 := by omega
        subst hi
        simp at h1
      | .err e0 true =>
        rw [batchLoop_retry _ _ _ _ hreq] at h2 ⊢
        cases i with
        | zero => simp at h1
        | succ j =>
          simp only [List.getElem?_cons_succ] at h1
          simp only [List.length_cons] at h2 ⊢
          have := ih request responses j resp h1 (by omega)
          exact ⟨fun hu => ⟨by rw [(this.1 hu).1], (this.1 hu).2⟩,
            fun hu hl => this.2 hu (by omega)⟩
      | .ok resp0 =>
        rw [batchLoop_ok _ _ _ _ hreq] at h2 ⊢
        cases i with
        | zero =>
          simp only [List.getElem?_cons_zero, Option.some.injEq] at h1
          have hr : resp0 = resp := by injection h1
          rw [← hr]
          dsimp only
          constructor
          · intro hu
            rw [batchLoop_done _ _ _ hu]
            exact ⟨by simp, mergeResponses (responses ++ [resp0]), rfl⟩
          · intro hu hl
            simp only [List.length_cons] at hl
            have hnil : (batchLoop resp0.UnprocessedKeys (responses ++ [resp0]) rest).issued = [] :=
              List.length_eq_zero.mp (by omega)
            exact batchLoop_issued_nil rest resp0.UnprocessedKeys (responses ++ [resp0]) hu hnil
        | succ j =>
          simp only [List.getElem?_cons_succ] at h1
          simp only [List.length_cons] at h2 ⊢
          have := ih resp0.UnprocessedKeys (responses ++ [resp0]) j resp h1 (by omega)
          exact ⟨fun hu => ⟨by rw [(this.1 hu).1], (this.1 hu).2⟩,
            fun hu hl => this.2 hu (by omega)⟩

end Dynogels

namespace Dynogels

/-- C2: in a batch-get bucket, whenever a response carries unprocessed
keys, the next request issued contains exactly those keys and nothing
else, and the sub-protocol stops exactly at the first response with no
unprocessed keys (continuing, or blocking on an exhausted trace,
otherwise). -/
theorem claim_C2_unprocessed_keys :
    (∀ (K It E : Type) (request : List K) (tr : List (BOutcome K It E))
       (i : Nat) (resp : BResp K It) (x : List K),
      tr[i]? = some (.ok resp) →
      (batchLoop request [] tr).issued[i+1]? = some x →
      x = resp.UnprocessedKeys)
    ∧ (∀ (K It E : Type) (request : List K) (tr : List (BOutcome K It E))
        (i : Nat) (resp : BResp K It),
      tr[i]? = some (.ok resp) →
      i < (batchLoop request [] tr).issued.length →
      (resp.UnprocessedKeys.isEmpty = true →
        (batchLoop request [] tr).issued.length = i + 1
        ∧ ∃ its, (batchLoop request [] tr).result = some (.ok its))
      ∧ (resp.UnprocessedKeys.isEmpty = false →
          (batchLoop request [] tr).issued.length = i + 1 →
          (batchLoop request [] tr).result = none)) := by
  exact ⟨fun K It E request tr i resp x h1 h2 =>
      batchLoop_next_request tr request [] i resp x h1 h2,
    fun K It E request tr i resp h1 h2 =>
      batchLoop_terminates tr request [] i resp h1 h2⟩

/-- C2 witness: a bucket of keys 1,2 whose first response leaves key 2
unprocessed; the follow-up request carries exactly key 2. -/
theorem claim_C2_unprocessed_keys_witness :
    (([.ok ⟨some [10], [2]⟩, .ok ⟨some [20], []⟩] :
        List (BOutcome Nat Nat Nat))[0]? = some (.ok ⟨some [10], [2]⟩))
    ∧ (batchLoop [1, 2] [] ([.ok ⟨some [10], [2]⟩, .ok ⟨some [20], []⟩] :
        List (BOutcome Nat Nat Nat))).issued[0+1]? = some [2]
    ∧ ([2] : List Nat) = (⟨some [10], [2]⟩ : BResp Nat Nat).UnprocessedKeys := by
  have h1 : (([.ok ⟨some [10], [2]⟩, .ok ⟨some [20], []⟩] :
      List (BOutcome Nat Nat Nat))[0]? = some (.ok ⟨some [10], [2]⟩)) := rfl
  have h2 : (batchLoop [1, 2] [] ([.ok ⟨some [10], [2]⟩, .ok ⟨some [20], []⟩] :
      List (BOutcome Nat Nat Nat))).issued[0+1]? = some [2] := rfl
  exact ⟨h1, h2, claim_C2_unprocessed_keys.1 Nat Nat Nat [1, 2] _ 0 _ [2] h1 h2⟩

/-- C6: a retryable gateway failure re-issues the identical pending
request without advancing the cursor or reducing the key set, in both
the query/scan pagination loop and the batch-get loop; a non-retryable
failure makes the whole call fail with that error immediately (no
further request, no aggregate returned). -/
theorem claim_C6_error_handling :
    (∀ (It Cu E : Type) (la : Bool) (tr : List (Outcome It Cu E))
       (i : Nat) (e : E) (x y : Option Cu),
      tr[i]? = some (.err e true) →
      (paginatedRequest la tr).issued[i]? = some x →
      (paginatedRequest la tr).issued[i+1]? = some y → y = x)
    ∧ (∀ (It Cu E : Type) (la : Bool) (tr : List (Outcome It Cu E)) (i : Nat) (e : E),
        tr[i]? = some (.err e false) →
        i < (paginatedRequest la tr).issued.length →
        (paginatedRequest la tr).result = some (.error e)
          ∧ (paginatedRequest la tr).issued.length = i + 1)
    ∧ (∀ (K It E : Type) (request : List K) (tr : List (BOutcome K It E))
        (i : Nat) (e : E) (x y : List K),
      tr[i]? = some (.err e true) →
      (batchLoop request [] tr).issued[i]? = some x →
      (batchLoop request [] tr).issued[i+1]? = some y → y = x)
    ∧ (∀ (K It E : Type) (request : List K) (tr : List (BOutcome K It E))
        (i : Nat) (e : E),
      tr[i]? = some (.err e false) →
      i < (batchLoop request [] tr).issued.length →
      (batchLoop request [] tr).result = some (.error e)
        ∧ (batchLoop request [] tr).issued.length = i + 1) := by
  exact ⟨fun It Cu E la tr i e x y h1 h2 h3 =>
      pagLoop_retry_same tr la none none true [] i e x y h1 h2 h3,
    fun It Cu E la tr i e h1 h2 =>
      pagLoop_fatal_stops tr la none none true [] i e h1 h2,
    fun K It E request tr i e x y h1 h2 h3 =>
      batchLoop_retry_same tr request [] i e x y h1 h2 h3,
    fun K It E request tr i e h1 h2 =>
      batchLoop_fatal_stops tr request [] i e h1 h2⟩

/-- C6 witness: a pagination run hitting a retryable error re-issues the
request with the same (cursor 3) start key, and a batch run hitting a
fatal error fails with it after exactly one more request. -/
theorem claim_C6_error_handling_witness :
    (([.ok ⟨some [1], some 1, none, none, some 3⟩, .err 8 true,
        .ok ⟨some [2], some 1, none, none, none⟩] :
        List (Outcome Nat Nat Nat))[1]? = some (.err 8 true))
    ∧ (paginatedRequest true ([.ok ⟨some [1], some 1, none, none, some 3⟩, .err 8 true,
        .ok ⟨some [2], some 1, none, none, none⟩] :
        List (Outcome Nat Nat Nat))).issued[1]? = some (some 3)
    ∧ (paginatedRequest true ([.ok ⟨some [1], some 1, none, none, some 3⟩, .err 8 true,
        .ok ⟨some [2], some 1, none, none, none⟩] :
        List (Outcome Nat Nat Nat))).issued[1+1]? = some (some 3)
    ∧ (some 3 : Option Nat) = some 3
    ∧ (([.err 9 false] : List (BOutcome Nat Nat Nat))[0]? = some (.err 9 false))
    ∧ 0 < (batchLoop [1] [] ([.err 9 false] : List (BOutcome Nat Nat Nat))).issued.length
    ∧ ((batchLoop [1] [] ([.err 9 false] : List (BOutcome Nat Nat Nat))).result =
        some (.error 9)
      ∧ (batchLoop [1] [] ([.err 9 false] : List (BOutcome Nat Nat Nat))).issued.length = 0 + 1) := by
  have h1 : (([.ok ⟨some [1], some 1, none, none, some 3⟩, .err 8 true,
      .ok ⟨some [2], some 1, none, none, none⟩] :
      List (Outcome Nat Nat Nat))[1]? = some (.err 8 true)) := rfl
  have h2 : (paginatedRequest true ([.ok ⟨some [1], some 1, none, none, some 3⟩, .err 8 true,
      .ok ⟨some [2], some 1, none, none, none⟩] :
      List (Outcome Nat Nat Nat))).issued[1]? = some (some 3) := rfl
  have h3 : (paginatedRequest true ([.ok ⟨some [1], some 1, none, none, some 3⟩, .err 8 true,
      .ok ⟨some [2], some 1, none, none, none⟩] :
      List (Outcome Nat Nat Nat))).issued[1+1]? = some (some 3) := rfl
  have h4 : (([.err 9 false] : List (BOutcome Nat Nat Nat))[0]? = some (.err 9 false)) := rfl
  have h5 : 0 < (batchLoop [1] [] ([.err 9 false] : List (BOutcome Nat Nat Nat))).issued.length := by
    decide
  exact ⟨h1, h2, h3, claim_C6_error_handling.1 Nat Nat Nat true _ 1 8 (some 3) (some 3) h1 h2 h3,
    h4, h5, claim_C6_error_handling.2.2.2 Nat Nat Nat [1] _ 0 9 h4 h5⟩

/-- C9 counterexample: the bucket dispatch in `internals.getItems` passes
no concurrency option to the mapping combinator, whose default starts
every bucket at once: for a 300-key input all 3 buckets are dispatched
simultaneously, and the simultaneous dispatch count grows with the input
(1001 for a 100100-key input) instead of respecting a fixed cap. -/
theorem claim_C9_counterexample :
    bucketDispatchConcurrency = none
    ∧ (buckets (List.replicate 300 (0:Nat))).length = 3
    ∧ initialInFlight ((buckets (List.replicate 300 (0:Nat))).length) =
        (buckets (List.replicate 300 (0:Nat))).length
    ∧ initialInFlight ((buckets (List.replicate 100100 (0:Nat))).length) = 1001 := by
  have h300 : (buckets (List.replicate 300 (0:Nat))).length = 3 := by
    rw [buckets_length, List.length_replicate]
  have hbig : (buckets (List.replicate 100100 (0:Nat))).length = 1001 := by
    rw [buckets_length, List.length_replicate]
  exact ⟨rfl, h300, rfl, by rw [hbig]; rfl⟩

/-- C9 amended: the buckets are dispatched all at once with no
concurrency cap (the in-flight count equals the bucket count), while
each bucket's internal unprocessed-key retry protocol is strictly
sequential: one request at a time, each issued only after the previous
outcome arrived. -/
theorem claim_C9_amended_dispatch :
    bucketDispatchConcurrency = none
    ∧ (∀ n : Nat, initialInFlight n = n)
    ∧ (∀ (K It E : Type) (request : List K) (responses : List (BResp K It))
        (tr : List (BOutcome K It E)),
        (batchLoop request responses tr).issued.length ≤ tr.length) := by
  refine ⟨rfl, fun n => rfl, ?_⟩
  intro K It E request responses tr
  induction tr generalizing request responses with
  | nil =>
    rcases Bool.eq_false_or_eq_true request.isEmpty with hreq | hreq
    · rw [batchLoop_done _ _ _ hreq]; simp
    · rw [batchLoop_nil _ _ hreq]; simp
  | cons o rest ih =>
    rcases Bool.eq_false_or_eq_true request.isEmpty with hreq | hreq
    · rw [batchLoop_done _ _ _ hreq]; simp
    · match o with
      | .err e false =>
        rw [batchLoop_fatal _ _ _ _ hreq]
        simp
      | .err e true =>
        rw [batchLoop_retry _ _ _ _ hreq]
        simpa using Nat.succ_le_succ (ih request responses)
      | .ok resp =>
        rw [batchLoop_ok _ _ _ _ hreq]
        simpa using Nat.succ_le_succ (ih resp.UnprocessedKeys (responses ++ [resp]))

end Dynogels

namespace Dynogels

theorem bucketsSplice_frame (s : Store K) (r : Nat) :
    ∀ q, q ≠ r → ((bucketsSplice s r).1).mem q = s.mem q := by
  induction s, r using bucketsSplice.induct with
  | case1 s r arr h =>
    intro q _hq
    rw [bucketsSplice, dif_pos h]
  | case2 s r arr h s1 ih =>
    intro q hq
    rw [bucketsSplice, dif_neg h]
    dsimp only
    have h2 : s1.mem q = s.mem q := Function.update_noteq hq _ _
    exact ((ih q hq).trans h2 :)

theorem bucketsSplice_chunks (s : Store K) (r : Nat) :
    (bucketsSplice s r).2 = buckets (s.mem r) := by
  induction s, r using bucketsSplice.induct with
  | case1 s r arr h =>
    rw [bucketsSplice, dif_pos h, buckets, dif_pos h]
  | case2 s r arr h s1 ih =>
    rw [bucketsSplice, dif_neg h, buckets, dif_neg h]
    dsimp only
    have h2 : s1.mem r = (s.mem r).drop 100 := Function.update_same _ _ _
    exact (congrArg (fun t => (s.mem r).take 100 :: t)
      (ih.trans (congrArg buckets h2)) :)

/-- C5: `getItems` does not mutate the caller's arrays: after the
clone-then-drain bucket partition, every array reference that existed
before the call (the caller's key array and options object included)
still holds its original contents, and the chunks produced agree with
the pure partition of the caller's keys. -/
theorem claim_C5_no_caller_mutation (K : Type) (s : Store K) (r : Nat) :
    (∀ q, q < s.next → ((getItemsStore s r).1).mem q = s.mem q)
    ∧ (getItemsStore s r).2 = buckets (s.mem r) := by
  constructor
  · intro q hq
    unfold getItemsStore cloneRef
    dsimp only
    rw [bucketsSplice_frame _ _ q (by omega)]
    dsimp only
    rw [Function.update_noteq (by omega)]
  · unfold getItemsStore cloneRef
    dsimp only
    rw [bucketsSplice_chunks]
    dsimp only
    rw [Function.update_same]

/-- C5 witness: a store holding one array [1, 2] at reference 0; after
`getItems` partitions it, reference 0 still holds [1, 2]. -/
theorem claim_C5_no_caller_mutation_witness :
    0 < (⟨fun _ => ([1, 2] : List Nat), 1⟩ : Store Nat).next
    ∧ ((getItemsStore (⟨fun _ => ([1, 2] : List Nat), 1⟩ : Store Nat) 0).1).mem 0 =
        (⟨fun _ => ([1, 2] : List Nat), 1⟩ : Store Nat).mem 0 := by
  exact ⟨by norm_num,
    (claim_C5_no_caller_mutation Nat ⟨fun _ => [1, 2], 1⟩ 0).1 0 (by norm_num)⟩

end Dynogels

namespace Dynogels

theorem streamLoop_spec (tr : List (Outcome It Cu E)) :
    ∀ (la : Bool) (lek : Option Cu) (out : StreamOut It Cu E),
    streamLoop la lek tr = some out →
    (∀ d ∈ out.delays, d = 1000)
    ∧ out.pushed = (tr.take out.consumed).filterMap okPage
    ∧ (la = false → out.error = none → out.ended = true ∧ out.pushed.length = 1)
    ∧ (la = true → out.error = none → out.ended = true ∧
        ∃ ps p, out.pushed = ps ++ [p] ∧ p.LastEvaluatedKey = none ∧
          ∀ q ∈ ps, q.LastEvaluatedKey.isSome) := by
  induction tr with
  | nil =>
    intro la lek out h
    simp [streamLoop] at h
  | cons o rest ih =>
    intro la lek out h
    match o with
    | .err e false =>
      rw [streamLoop] at h
      simp only [Bool.not_false, if_true, Option.some.injEq] at h
      subst h
      refine ⟨by simp, by simp [okPage], by simp, by simp⟩
    | .err e true =>
      rw [streamLoop] at h
      simp only [Bool.not_true, Bool.false_eq_true, if_false, Option.map_eq_some'] at h
      rcases h with ⟨o0, ho0, hout⟩
      subst hout
      rcases ih la lek o0 ho0 with ⟨hd, hp, hf, ht⟩
      refine ⟨?_, ?_, ?_, ?_⟩
      · intro d hdm
        rcases List.mem_cons.mp hdm with hdm | hdm
        · exact hdm
        · exact hd d hdm
      · simp only [List.take_succ_cons, List.filterMap_cons]
        simpa [okPage] using hp
      · intro hla he
        exact hf hla he
      · intro hla he
        exact ht hla he
    | .ok p =>
      rw [streamLoop] at h
      by_cases hterm : (!la || p.LastEvaluatedKey.isNone) = true
      · rw [if_pos hterm] at h
        simp only [Option.some.injEq] at h
        subst h
        refine ⟨by simp, by simp [okPage], ?_, ?_⟩
        · intro _hla _he
          exact ⟨rfl, by simp⟩
        · intro hla _he
          refine ⟨rfl, [], p, by simp, ?_, by simp⟩
          rw [hla] at hterm
          simpa using hterm
      · rw [if_neg hterm] at h
        simp only [Option.map_eq_some'] at h
        rcases h with ⟨o0, ho0, hout⟩
        subst hout
        have hla : la = true := by
          rcases Bool.eq_false_or_eq_true la with hla | hla
          · exact hla
          · exfalso; apply hterm; rw [hla]; simp
        have hlek : p.LastEvaluatedKey.isSome := by
          cases hs : p.LastEvaluatedKey with
          | none => exfalso; apply hterm; rw [hs]; simp
          | some k => rfl
        rcases ih la p.LastEvaluatedKey o0 ho0 with ⟨hd, hp, _hf, ht⟩
        refine ⟨?_, ?_, ?_, ?_⟩
        · intro d hdm
          exact hd d hdm
        · simp only [List.take_succ_cons, List.filterMap_cons]
          simpa [okPage] using hp
        · intro hla0 _he
          rw [hla0] at hla
          exact absurd hla (by simp)
        · intro _hla he
          rcases ht hla he with ⟨hend, ps, pl, hps, hpl, hall⟩
          refine ⟨hend, p :: ps, pl, by simp [hps], hpl, ?_⟩
          intro q hq
          rcases List.mem_cons.mp hq with hq | hq
          · rw [hq]; exact hlek
          · exact hall q hq

/-- C8: the streaming variant pushes exactly the successful pages of the
consumed trace prefix in arrival order, waits the fixed 1000 ms delay
before every retry of a retryable failure, and pushes end-of-stream
exactly after the first page when `loadAll` is false, or after the first
page without a cursor when `loadAll` is true. -/
theorem claim_C8_streaming :
    ∀ (It Cu E : Type) (la : Bool) (tr : List (Outcome It Cu E))
      (out : StreamOut It Cu E),
    streamRequest la tr = some out →
    (∀ d ∈ out.delays, d = 1000)
    ∧ out.pushed = (tr.take out.consumed).filterMap okPage
    ∧ (la = false → out.error = none → out.ended = true ∧ out.pushed.length = 1)
    ∧ (la = true → out.error = none → out.ended = true ∧
        ∃ (ps : List (Page It Cu)) (p : Page It Cu),
          out.pushed = ps ++ [p] ∧ p.LastEvaluatedKey = none ∧
          ∀ q ∈ ps, q.LastEvaluatedKey.isSome) := by
  intro It Cu E la tr out h
  exact streamLoop_spec tr la none out h

/-- C8 witness: a `loadAll` stream over one retryable failure and two
pages; the failure is retried after the fixed 1000 ms delay, both pages
are pushed in order, and the stream ends at the cursor-less second
page. -/
theorem claim_C8_streaming_witness :
    streamRequest true ([.err 5 true, .ok ⟨some [1], none, none, none, some 4⟩,
        .ok ⟨some [2], none, none, none, none⟩] : List (Outcome Nat Nat Nat)) =
      some ⟨[⟨some [1], none, none, none, some 4⟩,
             ⟨some [2], none, none, none, none⟩], [1000], true, none, 3⟩
    ∧ (∀ d ∈ (⟨[⟨some [1], none, none, none, some 4⟩,
             ⟨some [2], none, none, none, none⟩], [1000], true, none, 3⟩ :
              StreamOut Nat Nat Nat).delays, d = 1000) := by
  have h : streamRequest true ([.err 5 true, .ok ⟨some [1], none, none, none, some 4⟩,
      .ok ⟨some [2], none, none, none, none⟩] : List (Outcome Nat Nat Nat)) =
      some ⟨[⟨some [1], none, none, none, some 4⟩,
             ⟨some [2], none, none, none, none⟩], [1000], true, none, 3⟩ := rfl
  exact ⟨h, (claim_C8_streaming Nat Nat Nat true _ _ h).1⟩

end Dynogels
